import Mathlib

/-!
Shallow embedding of the window-tracking / multi-stream capture core of
`main.py` (screen_capture repository), together with theorems settling the
spec claims about it.

Conventions of the embedding:
* Python dicts `{'left': .., 'top': .., 'width': .., 'height': ..}` become the
  `Rect` structure; window objects (pygetwindow / win32gui records) become the
  `Window` structure.
* Native OS calls (pixel grab via `mss`, frame write via `cv2.VideoWriter`,
  `win32gui.SetWindowPos`) are externals: grabs and writes are oracles that
  may fail (a Python exception is `Except.error`), and the `SetWindowPos`
  calls executed by `resize_window` are collected in an effect list.
* Python exceptions propagate: any `Except.error` aborts the enclosing
  computation, exactly as an uncaught exception unwinds the Python frame.
-/

/-- A rectangle dict as used throughout `main.py`:
`{'left': .., 'top': .., 'width': .., 'height': ..}`. -/
structure Rect where
  left : Int
  top : Int
  width : Int
  height : Int
deriving DecidableEq, Repr

/-- A window record as surfaced by `pygetwindow` / `win32gui` enumeration:
an opaque handle, a title, a geometry, and visibility/minimized flags. -/
structure Window where
  hwnd : Nat
  title : String
  left : Int
  top : Int
  width : Int
  height : Int
  visible : Bool
  isMinimized : Bool
deriving DecidableEq, Repr

/-- Constant `EXPECTED_WIDTH` from `main.py` line 14. -/
def EXPECTED_WIDTH : Int := 464

/-- Constant `EXPECTED_HEIGHT` from `main.py` line 15. -/
def EXPECTED_HEIGHT : Int := 838

/-- Function `append_window(rects, w)` from `main.py` lines 70-81: skip if a rect with
the same `(left, top)` is already present, skip windows whose top-left corner
is at or before pixel `(1, 1)`, otherwise append the window's rectangle. -/
def append_window (rects : List Rect) (w : Window) : List Rect :=
  if rects.any (fun r => r.left == w.left && r.top == w.top) then rects
  else if w.left ≤ 1 || w.top ≤ 1 then rects
  else rects ++ [⟨w.left, w.top, w.width, w.height⟩]

/-- The discovery fold of `find_windows` (`main.py` lines 133-136, win32
branch): every enumerated window that is visible and not minimized is fed to
`append_window`, starting from the empty rect list. -/
def discover (ws : List Window) : List Rect :=
  ws.foldl (fun rects w =>
    if !w.visible || w.isMinimized then rects else append_window rects w) []

/-- The deduplicating fold over `append_window` alone (no visibility
filtering), i.e. the records actually fed to the dedup step. -/
def dedupAppend (ws : List Window) : List Rect :=
  ws.foldl append_window []

/-- The sort key comparison of `rects.sort(key=lambda r: (r['top'], r['left']))`
(`main.py` line 149): lexicographic `(top, left)`, non-strict. -/
def rectLe (r s : Rect) : Bool :=
  decide (r.top < s.top) || (r.top == s.top && decide (r.left ≤ s.left))

/-- The region ordering of `find_windows` line 149: Python's stable sort by
key `(top, left)`, modelled by the stable `List.mergeSort`. -/
def order (rects : List Rect) : List Rect :=
  rects.mergeSort rectLe

/-- Python exceptions that the modelled code can raise or propagate. -/
inductive PyError where
  | indexError
  | grabError
  | writeError
  | unboundLocal
  | valueError
deriving DecidableEq, Repr

/-- A raw pixel as `mss` delivers it: four channels in storage order
B, G, R, A. -/
structure BGRAPixel where
  b : Int
  g : Int
  r : Int
  a : Int
deriving DecidableEq, Repr

/-- A three-channel pixel (channel values in storage order 0, 1, 2). -/
structure Pixel3 where
  c0 : Int
  c1 : Int
  c2 : Int
deriving DecidableEq, Repr

/-- A raw grabbed frame: a flat list of BGRA pixels. -/
def RawFrame : Type := List BGRAPixel

/-- Slicing `frame[..., :3]` (`main.py` line 179): keep the first three channels of
every pixel; for BGRA input those are B, G, R in that order. -/
def sliceFirst3 (f : List BGRAPixel) : List Pixel3 :=
  f.map (fun p => ⟨p.b, p.g, p.r⟩)

/-- Conversion `cv2.cvtColor(frame, cv2.COLOR_RGB2BGR)` (`main.py` line 179): reverse the
channel order of every pixel of a three-channel image (channel 0 and channel
2 are swapped). -/
def cvtColorRGB2BGR (f : List Pixel3) : List Pixel3 :=
  f.map (fun p => ⟨p.c2, p.c1, p.c0⟩)

/-- The frame appended to the writer, `main.py` line 179:
`bgr = cv2.cvtColor(frame[..., :3], cv2.COLOR_RGB2BGR)`. -/
def frameToBGR (f : List BGRAPixel) : List Pixel3 :=
  cvtColorRGB2BGR (sliceFirst3 f)

/-- A `cv2.VideoWriter`: the file name and frame size fixed at construction,
and the frames appended so far. -/
structure VideoWriter where
  filename : String
  fwidth : Int
  fheight : Int
  frames : List (List Pixel3)
deriving DecidableEq, Repr

/-- A lazy-initialization event: slot `slot` constructed a writer for output
file `filename` (`main.py` lines 163-175). -/
structure CreateEvent where
  slot : Nat
  filename : String
deriving DecidableEq, Repr

/-- The output file name stamped by the lazy initialization of slot `i` at
timestamp `ts`: `f"{output_prefix}capture_{i}_{timestamp}.mp4"`
(`main.py` line 167). -/
def slotFilename (outputPfx : String) (i : Nat) (ts : String) : String :=
  outputPfx ++ "capture_" ++ toString i ++ "_" ++ ts ++ ".mp4"

/-- Append a frame to the writer at index `i`
(`video_writers[i].write(bgr)`, `main.py` line 180). -/
def writeFrame (writers : List (Option VideoWriter)) (i : Nat) (f : List Pixel3) :
    List (Option VideoWriter) :=
  match writers[i]? with
  | some (some w) => writers.set i (some { w with frames := w.frames ++ [f] })
  | _ => writers

/-- One pass of `for i, r in enumerate(rects)` (`main.py` lines 159-180),
starting at ordinal `i`. `grab` and `writeRes` are the external `sct.grab`
and `cv2.VideoWriter.write` calls, oracles that may raise; any raised
exception propagates and aborts the whole tick, as in Python. Reading
`video_writers[i]` out of bounds raises IndexError (`main.py` line 163).
Lazy initialization (lines 163-175) builds the output file name
`f"{output_prefix}capture_{i}_{timestamp}.mp4"` and, on darwin, doubles the
writer dimensions. Creation events are collected in order. -/
def tickSlots (isDarwin : Bool) (grab : Nat → Except PyError RawFrame)
    (writeRes : Nat → Except PyError Unit) (ts : String) (outputPfx : String) :
    List (Option VideoWriter) → Nat → List Rect →
    Except PyError (List (Option VideoWriter) × List CreateEvent)
  | writers, _, [] => .ok (writers, [])
  | writers, i, r :: rest =>
    match writers[i]? with
    | none => .error .indexError
    | some slot =>
      let st :=
        match slot with
        | none =>
          let filename := slotFilename outputPfx i ts
          let w := if isDarwin then r.width * 2 else r.width
          let h := if isDarwin then r.height * 2 else r.height
          (writers.set i (some ⟨filename, w, h, []⟩),
            [(⟨i, filename⟩ : CreateEvent)])
        | some _ => (writers, [])
      match grab i with
      | .error e => .error e
      | .ok raw =>
        match writeRes i with
        | .error e => .error e
        | .ok _ =>
          match tickSlots isDarwin grab writeRes ts outputPfx
              (writeFrame st.1 i (frameToBGR raw)) (i + 1) rest with
          | .error e => .error e
          | .ok (wsF, evs) => .ok (wsF, st.2 ++ evs)

/-- The inputs of one tick of the capture loop: the timestamp the lazy
initializations of this tick would stamp into file names, the ordered region
list returned by `find_windows`, and the tick's external grab/write calls. -/
structure TickInput where
  ts : String
  rects : List Rect
  grab : Nat → Except PyError RawFrame
  writeRes : Nat → Except PyError Unit

/-- The `while not stop_event.is_set()` loop of `capture_loop` (`main.py`
lines 155-181) over a finite trace of ticks: the trace ends when the
cancellation signal is observed at the top of the loop. Exceptions propagate
out of the loop. Creation events of all ticks are concatenated in order. -/
def runTicks (isDarwin : Bool) (outputPfx : String) :
    List TickInput → List (Option VideoWriter) →
    Except PyError (List (Option VideoWriter) × List CreateEvent)
  | [], writers => .ok (writers, [])
  | t :: rest, writers =>
    match tickSlots isDarwin t.grab t.writeRes t.ts outputPfx writers 0
        t.rects with
    | .error e => .error e
    | .ok (ws1, evs) =>
      match runTicks isDarwin outputPfx rest ws1 with
      | .error e => .error e
      | .ok (wsF, evsR) => .ok (wsF, evs ++ evsR)

/-- The drain step of `capture_loop` (`main.py` lines 184-187): walk the
writer pool releasing every initialized writer; `None` slots are skipped.
Returns the sequence of released writers. -/
def drain : List (Option VideoWriter) → List VideoWriter
  | [] => []
  | none :: rest => drain rest
  | some w :: rest => w :: drain rest

/-- Function `capture_loop` (`main.py` lines 152-187): preallocate a pool of 10
writer slots (`video_writers = [None] * 10`), run the tick loop until the
cancellation signal ends the trace, then drain. An exception propagating out
of the loop skips the drain (there is no try/finally in the source). -/
def capture_loop (isDarwin : Bool) (outputPfx : String)
    (ticks : List TickInput) :
    Except PyError (List CreateEvent × List VideoWriter) :=
  match runTicks isDarwin outputPfx ticks (List.replicate 10 none) with
  | .error e => .error e
  | .ok (ws, evs) => .ok (evs, drain ws)

/-- Python's `str.strip()` on a window title (`main.py` line 96): drop
leading and trailing whitespace, modelled structurally on the string's
character list. -/
def stripStr (s : String) : String :=
  ⟨((s.data.dropWhile Char.isWhitespace).reverse.dropWhile
      Char.isWhitespace).reverse⟩

/-- Function `list_window_positions()` (`main.py` lines 84-109), with the raw
`EnumWindows` enumeration passed as input: keep visible windows whose
stripped title is nonempty, recording the stripped title. -/
def list_window_positions (ws : List Window) : List Window :=
  ws.filterMap (fun w =>
    if w.visible then
      let t := stripStr w.title
      if t == "" then none else some { w with title := t }
    else none)

/-- Function `resize_window(title, x, y, width, height)` (`main.py` lines 111-127),
with the `list_window_positions()` enumeration passed as input. The `for`
loop assigns the local `selected_hwnd` only when a window matches the title
and the `(x, y)` position (first match, then `break`); the later reference
`if not selected_hwnd` raises Python's UnboundLocalError when no assignment
happened; a falsy (zero) handle reaches the `raise ValueError` branch;
otherwise the executed `win32gui.SetWindowPos(selected_hwnd, None, x, y,
width, height, ...)` call is returned as `(hwnd, x, y, width, height)`. -/
def resize_window (title : String) (x y width height : Int)
    (ws : List Window) : Except PyError (Nat × Int × Int × Int × Int) :=
  let windows := list_window_positions ws
  let selected_hwnd : Option Nat :=
    (windows.find?
        (fun w => w.title == title && w.left == x && w.top == y)).map
      (fun w => w.hwnd)
  match selected_hwnd with
  | none => .error .unboundLocal
  | some hwnd =>
    if hwnd == 0 then .error .valueError
    else .ok (hwnd, x, y, width, height)

/-- The corrective pass of `find_windows` (`main.py` lines 137-140): walk the
discovered rects in order and, for each rect whose size differs from the
expected template size, call `resize_window(title, rect.left, rect.top,
EXPECTED_WIDTH, EXPECTED_HEIGHT)` against the fresh native enumeration
`enumWs` (the `win32gui.EnumWindows` snapshot that
`list_window_positions()` sees inside `resize_window`, distinct from the
`pygetwindow` discovery enumeration). The executed `SetWindowPos` calls are
collected in order; an exception raised by `resize_window` — in particular
the unbound-local failure when no exact `(title, left, top)` match exists —
propagates, aborting the pass with no further resize calls. -/
def resizePass (title : String) (enumWs : List Window) :
    List Rect → Except PyError (List (Nat × Int × Int × Int × Int))
  | [] => .ok []
  | r :: rest =>
    if r.width != EXPECTED_WIDTH || r.height != EXPECTED_HEIGHT then
      match resize_window title r.left r.top EXPECTED_WIDTH EXPECTED_HEIGHT
          enumWs with
      | .error e => .error e
      | .ok cmd =>
        match resizePass title enumWs rest with
        | .error e => .error e
        | .ok cmds => .ok (cmd :: cmds)
    else
      resizePass title enumWs rest

/-- Function `find_windows(title)` (`main.py` lines 129-150, win32 branch).
`gws` is the `gw.getWindowsWithTitle(title)` discovery enumeration and
`enumWs` the `win32gui.EnumWindows` enumeration that `resize_window` sees;
the executed `SetWindowPos` calls are returned as an effect list. Discover
rects, run the corrective resize pass (whose exception, if any, propagates
out of `find_windows` before anything is returned), then sort and return. -/
def find_windows (title : String) (gws enumWs : List Window) :
    Except PyError (List Rect × List (Nat × Int × Int × Int × Int)) :=
  let rects := discover gws
  match resizePass title enumWs rects with
  | .error e => .error e
  | .ok cmds => .ok (order rects, cmds)

/-- A grab call that always succeeds, yielding a fixed one-pixel frame. -/
def okGrab : Nat → Except PyError RawFrame :=
  fun _ => .ok [⟨10, 20, 30, 255⟩]

/-- A write call that always succeeds. -/
def okWrite : Nat → Except PyError Unit :=
  fun _ => .ok ()

/-- A grab call that raises on slot 0 (as `mss` raises `ScreenShotError`
when a region cannot be grabbed) and succeeds on every other slot. -/
def failGrab0 : Nat → Except PyError RawFrame :=
  fun i => if i == 0 then .error .grabError else .ok [⟨10, 20, 30, 255⟩]

/-- A tick whose external grab and write calls all succeed. -/
def mkTick (ts : String) (rects : List Rect) : TickInput :=
  ⟨ts, rects, okGrab, okWrite⟩

/-- Whether slot `i` of the pool holds an initialized writer
(`video_writers[i] is not None`). -/
def isInit (writers : List (Option VideoWriter)) (i : Nat) : Bool :=
  match writers[i]? with
  | some (some _) => true
  | _ => false

/-- The lazy-initialization events that belong to slot `i`. -/
def slotEvents (i : Nat) (evs : List CreateEvent) : List CreateEvent :=
  evs.filter (fun e => e.slot == i)

/-- The first window of spec scenario A: a 200 x 300 window at `(10, 10)`. -/
def rA : Rect := ⟨10, 10, 200, 300⟩

/-- The second window of spec scenario A: a 200 x 300 window at `(10, 400)`. -/
def rB : Rect := ⟨10, 400, 200, 300⟩

/-! ## Helper lemmas -/

lemma rectLe_trans (a b c : Rect) : rectLe a b → rectLe b c → rectLe a c := by
  simp only [rectLe, Bool.or_eq_true, decide_eq_true_eq, Bool.and_eq_true,
    beq_iff_eq]
  omega

lemma rectLe_total (a b : Rect) : rectLe a b || rectLe b a := by
  simp only [rectLe, Bool.or_eq_true, decide_eq_true_eq, Bool.and_eq_true,
    beq_iff_eq]
  omega

lemma mem_append_window {rects : List Rect} {w : Window} {r : Rect}
    (hr : r ∈ append_window rects w) :
    r ∈ rects ∨
      (r = ⟨w.left, w.top, w.width, w.height⟩ ∧ 1 < w.left ∧ 1 < w.top) := by
  unfold append_window at hr
  split at hr
  · exact Or.inl hr
  · split at hr
    · exact Or.inl hr
    · rename_i h1 h2
      rcases List.mem_append.1 hr with h | h
      · exact Or.inl h
      · refine Or.inr ⟨List.mem_singleton.1 h, ?_⟩
        simp only [Bool.or_eq_true, decide_eq_true_eq] at h2
        omega

lemma foldl_pred_invariant {α β : Type} (step : List α → β → List α)
    (P : α → Prop)
    (hstep : ∀ acc b, (∀ x ∈ acc, P x) → ∀ r ∈ step acc b, P r) :
    ∀ (l : List β) (acc : List α), (∀ x ∈ acc, P x) →
      ∀ r ∈ l.foldl step acc, P r := by
  intro l
  induction l with
  | nil => exact fun acc hacc r hr => hacc r hr
  | cons b l ih => exact fun acc hacc r hr => ih _ (hstep acc b hacc) r hr

lemma discover_margin {ws : List Window} {r : Rect} (hr : r ∈ discover ws) :
    1 < r.left ∧ 1 < r.top := by
  unfold discover at hr
  refine foldl_pred_invariant _ (fun r => 1 < r.left ∧ 1 < r.top)
    ?_ ws [] (by simp) r hr
  intro acc w hacc r' hr'
  split at hr'
  · exact hacc r' hr'
  · rcases mem_append_window hr' with h | ⟨rfl, h1, h2⟩
    · exact hacc r' h
    · exact ⟨h1, h2⟩

lemma find_windows_ok_shape {title : String} {gws enumWs : List Window}
    {rs : List Rect} {cmds : List (Nat × Int × Int × Int × Int)}
    (hok : find_windows title gws enumWs = .ok (rs, cmds)) :
    rs = order (discover gws) ∧
      resizePass title enumWs (discover gws) = .ok cmds := by
  simp only [find_windows] at hok
  cases hp : resizePass title enumWs (discover gws) with
  | error e =>
    rw [hp] at hok
    cases hok
  | ok cmds' =>
    rw [hp] at hok
    have h := Except.ok.inj hok
    rw [Prod.mk.injEq] at h
    exact ⟨h.1.symm, by rw [h.2]⟩

lemma mem_find_windows_fst {title : String} {gws enumWs : List Window}
    {rs : List Rect} {cmds : List (Nat × Int × Int × Int × Int)} {r : Rect}
    (hok : find_windows title gws enumWs = .ok (rs, cmds))
    (hr : r ∈ rs) : r ∈ discover gws := by
  rw [(find_windows_ok_shape hok).1] at hr
  simpa [order, List.mem_mergeSort] using hr

/-! ## Claim theorems -/

/-- C8: the region ordering function `order`, which sorts rectangles by
`(top ascending, left ascending)`, is idempotent: for every list of
rectangles `L`, `order (order L) = order L`. -/
theorem order_idempotent (L : List Rect) : order (order L) = order L :=
  List.mergeSort_of_sorted (List.sorted_mergeSort rectLe_trans rectLe_total L)

/-- C6: every window record with `left ≤ 1` or `top ≤ 1` is excluded by
discovery filtering: no rectangle in the list returned by `find_windows`
carries its top-left corner, whatever its other fields or its position in
the enumeration. -/
theorem margin_window_excluded (title : String) (gws enumWs : List Window)
    (w : Window) (hw : w.left ≤ 1 ∨ w.top ≤ 1) (rs : List Rect)
    (cmds : List (Nat × Int × Int × Int × Int))
    (hok : find_windows title gws enumWs = .ok (rs, cmds)) (r : Rect)
    (hr : r ∈ rs) :
    ¬(r.left = w.left ∧ r.top = w.top) := by
  have h := discover_margin (mem_find_windows_fst hok hr)
  rintro ⟨h1, h2⟩
  omega

/-- C6 witness: a visible window at corner `(0, 5)` is excluded — the
rectangle that a completed `find_windows` run returns for a concrete
two-window enumeration does not carry its corner. -/
theorem margin_window_excluded_witness :
    ¬((⟨10, 10, 464, 838⟩ : Rect).left =
        (⟨1, "t", 0, 5, 9, 9, true, false⟩ : Window).left ∧
      (⟨10, 10, 464, 838⟩ : Rect).top =
        (⟨1, "t", 0, 5, 9, 9, true, false⟩ : Window).top) :=
  margin_window_excluded "t"
    [⟨1, "t", 0, 5, 9, 9, true, false⟩,
     ⟨2, "t", 10, 10, 464, 838, true, false⟩] []
    ⟨1, "t", 0, 5, 9, 9, true, false⟩ (Or.inl (by decide))
    (order (discover
      [⟨1, "t", 0, 5, 9, 9, true, false⟩,
       ⟨2, "t", 10, 10, 464, 838, true, false⟩])) []
    rfl
    ⟨10, 10, 464, 838⟩
    (by rw [order, List.mem_mergeSort]; decide)

/-- C3: the claim that the appended frame equals the first three channels of
the raw BGRA frame (i.e. stays in BGR order) is false: `main.py` line 179
applies `cv2.COLOR_RGB2BGR` to an already-BGR array, so the appended frame
is the channel-reversed slice (RGB order), contradicting the source comment
"drop alpha and convert to BGR". Evaluated at the raw pixel
`(b, g, r, a) = (10, 20, 30, 255)`: the code appends `(30, 20, 10)`, not
`(10, 20, 30)`; a full one-tick run stores the reversed pixel in the writer. -/
theorem appended_frame_channel_reversed :
    frameToBGR [⟨10, 20, 30, 255⟩] = [⟨30, 20, 10⟩] ∧
    frameToBGR [⟨10, 20, 30, 255⟩] ≠ sliceFirst3 [⟨10, 20, 30, 255⟩] ∧
    capture_loop false "" [mkTick "t" [rA]] =
      .ok ([⟨0, slotFilename "" 0 "t"⟩],
        [⟨slotFilename "" 0 "t", 200, 300, [[⟨30, 20, 10⟩]]⟩]) := by
  exact ⟨by decide, by decide, rfl⟩

/-- C10: when no enumerated visible window matches the given title and
top-left corner, `resize_window` fails with Python's UnboundLocalError (the
reference to `selected_hwnd` before any assignment), not with its own
`ValueError`; the `if not selected_hwnd` guard raises `ValueError` only when
a match was found (with a falsy zero handle). -/
theorem resize_window_unbound_local (title : String)
    (x y width height : Int) (ws : List Window) :
    ((∀ w ∈ list_window_positions ws,
        ¬(w.title = title ∧ w.left = x ∧ w.top = y)) →
      resize_window title x y width height ws = .error .unboundLocal) ∧
    (resize_window title x y width height ws = .error .valueError →
      ∃ w ∈ list_window_positions ws,
        w.title = title ∧ w.left = x ∧ w.top = y ∧ w.hwnd = 0) := by
  constructor
  · intro hno
    unfold resize_window
    have : (list_window_positions ws).find?
        (fun w => w.title == title && w.left == x && w.top == y) = none := by
      rw [List.find?_eq_none]
      intro w hw
      have := hno w hw
      simp only [Bool.and_eq_true, beq_iff_eq, not_and]
      tauto
    simp [this]
  · intro hv
    unfold resize_window at hv
    rcases hfind : (list_window_positions ws).find?
        (fun w => w.title == title && w.left == x && w.top == y) with _ | w
    · simp [hfind] at hv
    · have hp := List.find?_some hfind
      have hm := List.mem_of_find?_eq_some hfind
      simp only [Bool.and_eq_true, beq_iff_eq] at hp
      refine ⟨w, hm, hp.1.1, hp.1.2, hp.2, ?_⟩
      simp only [hfind, Option.map_some] at hv
      by_cases h0 : w.hwnd = 0
      · exact h0
      · simp [h0] at hv

/-- C10 witness: with an enumeration in which no visible window matches the
requested title and position, `resize_window` fails with the unbound-local
error. -/
theorem resize_window_unbound_local_witness :
    resize_window "Calculator" 5 5 464 838
      [⟨7, "Calculator", 9, 9, 464, 838, false, false⟩] =
      .error .unboundLocal :=
  (resize_window_unbound_local "Calculator" 5 5 464 838
    [⟨7, "Calculator", 9, 9, 464, 838, false, false⟩]).1 (by decide)

/-! ## Deduplication lemmas (C7) and corrective resize (C5) -/

/-- The duplicate test of `append_window` line 71: is a rect with this
`(left, top)` corner already present? -/
def hasCorner (rects : List Rect) (l t : Int) : Bool :=
  rects.any (fun r => r.left == l && r.top == t)

lemma append_window_cases {rects : List Rect} {w : Window} {r : Rect}
    (hr : r ∈ append_window rects w) :
    r ∈ rects ∨
      (r = ⟨w.left, w.top, w.width, w.height⟩ ∧
        hasCorner rects w.left w.top = false ∧ 1 < w.left ∧ 1 < w.top) := by
  unfold append_window at hr
  split at hr
  · exact Or.inl hr
  · rename_i hdup
    split at hr
    · exact Or.inl hr
    · rename_i hedge
      rcases List.mem_append.1 hr with h | h
      · exact Or.inl h
      · refine Or.inr ⟨List.mem_singleton.1 h, ?_, ?_⟩
        · exact eq_false_of_ne_true hdup
        · simp only [Bool.or_eq_true, decide_eq_true_eq] at hedge
          omega

lemma hasCorner_append_window_mono {acc : List Rect} {w : Window} {l t : Int}
    (h : hasCorner (append_window acc w) l t = false) :
    hasCorner acc l t = false := by
  unfold append_window at h
  split at h
  · exact h
  · split at h
    · exact h
    · unfold hasCorner at h ⊢
      rw [List.any_append] at h
      exact (Bool.or_eq_false_iff.1 h).1

lemma append_window_fresh_corner {acc : List Rect} {w : Window} {l t : Int}
    (h : hasCorner (append_window acc w) l t = false)
    (hl : 1 < l) (ht : 1 < t) : ¬(w.left = l ∧ w.top = t) := by
  rintro ⟨rfl, rfl⟩
  unfold append_window at h
  split at h
  · rename_i hdup
    exact absurd hdup (ne_true_of_eq_false h)
  · split at h
    · rename_i hedge
      simp only [Bool.or_eq_true, decide_eq_true_eq] at hedge
      omega
    · unfold hasCorner at h
      rw [List.any_append] at h
      have h2 := (Bool.or_eq_false_iff.1 h).2
      simp at h2

lemma dedup_first_aux :
    ∀ (ws : List Window) (acc : List Rect) (r : Rect),
      r ∈ ws.foldl append_window acc →
      r ∈ acc ∨
        ∃ l₁ w l₂, ws = l₁ ++ w :: l₂ ∧
          r = ⟨w.left, w.top, w.width, w.height⟩ ∧
          hasCorner acc w.left w.top = false ∧
          1 < w.left ∧ 1 < w.top ∧
          ∀ w2 ∈ l₁, ¬(w2.left = w.left ∧ w2.top = w.top) := by
  intro ws
  induction ws with
  | nil => exact fun acc r hr => Or.inl hr
  | cons w ws ih =>
    intro acc r hr
    rw [List.foldl_cons] at hr
    rcases ih (append_window acc w) r hr with
      hmem | ⟨l₁, w', l₂, hsplit, hrw, hcorner, hl, ht, hfirst⟩
    · rcases append_window_cases hmem with h | ⟨hrw, hcorner, hl, ht⟩
      · exact Or.inl h
      · exact Or.inr ⟨[], w, ws, rfl, hrw, hcorner, hl, ht, by simp⟩
    · refine Or.inr ⟨w :: l₁, w', l₂, by simp [hsplit], hrw,
        hasCorner_append_window_mono hcorner, hl, ht, ?_⟩
      intro w2 hw2
      rcases List.mem_cons.1 hw2 with rfl | h
      · exact append_window_fresh_corner hcorner hl ht
      · exact hfirst w2 h

lemma pairwise_append_window {acc : List Rect} {w : Window}
    (h : List.Pairwise (fun r s : Rect => ¬(r.left = s.left ∧ r.top = s.top))
      acc) :
    List.Pairwise (fun r s : Rect => ¬(r.left = s.left ∧ r.top = s.top))
      (append_window acc w) := by
  unfold append_window
  split
  · exact h
  · split
    · exact h
    · rename_i hdup hedge
      rw [List.pairwise_append]
      refine ⟨h, by simp, ?_⟩
      intro r hr x hx
      rw [List.mem_singleton] at hx
      subst hx
      simp only [List.any_eq_true, Bool.and_eq_true, beq_iff_eq, not_exists,
        not_and] at hdup
      intro hc
      exact absurd hc.2 (hdup r hr hc.1)

lemma pairwise_foldl_append_window :
    ∀ (ws : List Window) (acc : List Rect),
      List.Pairwise (fun r s : Rect => ¬(r.left = s.left ∧ r.top = s.top))
        acc →
      List.Pairwise (fun r s : Rect => ¬(r.left = s.left ∧ r.top = s.top))
        (ws.foldl append_window acc) := by
  intro ws
  induction ws with
  | nil => exact fun acc h => h
  | cons w ws ih =>
    intro acc h
    rw [List.foldl_cons]
    exact ih _ (pairwise_append_window h)

lemma discover_eq_dedupAppend (ws : List Window) :
    discover ws =
      dedupAppend (ws.filter (fun w => w.visible && !w.isMinimized)) := by
  unfold discover dedupAppend
  suffices h : ∀ (l : List Window) (acc : List Rect),
      l.foldl (fun rects w =>
        if !w.visible || w.isMinimized then rects
        else append_window rects w) acc =
      (l.filter (fun w => w.visible && !w.isMinimized)).foldl
        append_window acc by
    exact h ws []
  intro l
  induction l with
  | nil => intro acc; rfl
  | cons w l ih =>
    intro acc
    simp only [List.foldl_cons]
    by_cases hcond : (!w.visible || w.isMinimized) = true
    · have hpf : (w.visible && !w.isMinimized) = false := by
        cases hv : w.visible <;> cases hm : w.isMinimized <;> simp_all
      rw [if_pos hcond, List.filter_cons, hpf, if_neg Bool.false_ne_true]
      exact ih acc
    · have hpt : (w.visible && !w.isMinimized) = true := by
        cases hv : w.visible <;> cases hm : w.isMinimized <;> simp_all
      rw [if_neg hcond, List.filter_cons, hpt, if_pos rfl, List.foldl_cons]
      exact ih (append_window acc w)

/-- C7: for every sequence of window records, deduplication by
`(left, top)` yields rectangle lists (both the raw `append_window` fold and
the `discover` output) with pairwise-distinct corner pairs, and every kept
rectangle comes from the first record seen at its corner position: the input
splits as `l₁ ++ w :: l₂` where `r` is `w`'s rectangle and no record of `l₁`
shares `w`'s corner. -/
theorem dedup_by_corner_first_kept (ws : List Window) :
    List.Pairwise (fun r s : Rect => ¬(r.left = s.left ∧ r.top = s.top))
      (dedupAppend ws) ∧
    List.Pairwise (fun r s : Rect => ¬(r.left = s.left ∧ r.top = s.top))
      (discover ws) ∧
    ∀ r ∈ dedupAppend ws, ∃ l₁ w l₂, ws = l₁ ++ w :: l₂ ∧
      r = ⟨w.left, w.top, w.width, w.height⟩ ∧
      ∀ w2 ∈ l₁, ¬(w2.left = w.left ∧ w2.top = w.top) := by
  refine ⟨pairwise_foldl_append_window ws [] (by simp), ?_, ?_⟩
  · rw [discover_eq_dedupAppend]
    exact pairwise_foldl_append_window _ [] (by simp)
  · intro r hr
    rcases dedup_first_aux ws [] r hr with h | ⟨l₁, w, l₂, hs, hrw, _, _, _, hf⟩
    · simp at h
    · exact ⟨l₁, w, l₂, hs, hrw, hf⟩

/-- C7 witness: the theorem instantiated at a concrete three-record
enumeration with a duplicated corner. -/
theorem dedup_by_corner_first_kept_witness :
    List.Pairwise (fun r s : Rect => ¬(r.left = s.left ∧ r.top = s.top))
      (dedupAppend
        [⟨1, "t", 10, 10, 200, 300, true, false⟩,
         ⟨2, "t", 10, 10, 50, 60, true, false⟩,
         ⟨3, "t", 10, 400, 200, 300, true, false⟩]) ∧
    List.Pairwise (fun r s : Rect => ¬(r.left = s.left ∧ r.top = s.top))
      (discover
        [⟨1, "t", 10, 10, 200, 300, true, false⟩,
         ⟨2, "t", 10, 10, 50, 60, true, false⟩,
         ⟨3, "t", 10, 400, 200, 300, true, false⟩]) ∧
    ∀ r ∈ dedupAppend
        [⟨1, "t", 10, 10, 200, 300, true, false⟩,
         ⟨2, "t", 10, 10, 50, 60, true, false⟩,
         ⟨3, "t", 10, 400, 200, 300, true, false⟩],
      ∃ l₁ w l₂,
        ([⟨1, "t", 10, 10, 200, 300, true, false⟩,
          ⟨2, "t", 10, 10, 50, 60, true, false⟩,
          ⟨3, "t", 10, 400, 200, 300, true, false⟩] : List Window) =
            l₁ ++ w :: l₂ ∧
        r = ⟨w.left, w.top, w.width, w.height⟩ ∧
        ∀ w2 ∈ l₁, ¬(w2.left = w.left ∧ w2.top = w.top) :=
  dedup_by_corner_first_kept
    [⟨1, "t", 10, 10, 200, 300, true, false⟩,
     ⟨2, "t", 10, 10, 50, 60, true, false⟩,
     ⟨3, "t", 10, 400, 200, 300, true, false⟩]

lemma resize_window_ok_shape {title : String} {x y width height : Int}
    {ws : List Window} {p : Nat × Int × Int × Int × Int}
    (h : resize_window title x y width height ws = .ok p) :
    ∃ hwnd, p = (hwnd, x, y, width, height) := by
  simp only [resize_window] at h
  cases hf : (list_window_positions ws).find?
      (fun w => w.title == title && w.left == x && w.top == y) with
  | none =>
    rw [hf] at h
    simp only [Option.map_none'] at h
    cases h
  | some w =>
    rw [hf] at h
    simp only [Option.map_some'] at h
    split at h
    · cases h
    · exact ⟨w.hwnd, (Except.ok.inj h).symm⟩

lemma resizePass_mem {title : String} {enumWs : List Window} :
    ∀ {rects : List Rect} {cmds : List (Nat × Int × Int × Int × Int)},
      resizePass title enumWs rects = .ok cmds →
      ∀ r ∈ rects,
        (r.width ≠ EXPECTED_WIDTH ∨ r.height ≠ EXPECTED_HEIGHT) →
        ∃ hwnd,
          (hwnd, r.left, r.top, EXPECTED_WIDTH, EXPECTED_HEIGHT) ∈ cmds := by
  intro rects
  induction rects with
  | nil =>
    intro cmds _ r hr _
    exact absurd hr (List.not_mem_nil r)
  | cons r0 rest ih =>
    intro cmds h r hr hm
    simp only [resizePass] at h
    by_cases hcond :
        (r0.width != EXPECTED_WIDTH || r0.height != EXPECTED_HEIGHT) = true
    · rw [if_pos hcond] at h
      cases hrw : resize_window title r0.left r0.top EXPECTED_WIDTH
          EXPECTED_HEIGHT enumWs with
      | error e =>
        rw [hrw] at h
        cases h
      | ok cmd =>
        rw [hrw] at h
        cases hrec : resizePass title enumWs rest with
        | error e =>
          rw [hrec] at h
          cases h
        | ok cmds2 =>
          rw [hrec] at h
          have hc := Except.ok.inj h
          subst hc
          rcases List.mem_cons.1 hr with rfl | hr2
          · obtain ⟨hwnd, hp⟩ := resize_window_ok_shape hrw
            exact ⟨hwnd, by rw [hp]; exact List.mem_cons_self _ _⟩
          · obtain ⟨hwnd, hmem⟩ := ih hrec r hr2 hm
            exact ⟨hwnd, List.mem_cons_of_mem _ hmem⟩
    · rw [if_neg hcond] at h
      rcases List.mem_cons.1 hr with rfl | hr2
      · exfalso
        simp only [Bool.or_eq_true, bne_iff_ne, ne_eq] at hcond
        push_neg at hcond
        rcases hm with hm | hm
        · exact hm hcond.1
        · exact hm hcond.2
      · exact ih h r hr2 hm

/-- C5 counterexample: a located, visible `200 x 300` window titled
"Calculator" at `(10, 10)` has a mismatched size, yet the locator issues no
resize command and returns nothing: the fresh native enumeration that
`resize_window` re-takes has no exact `(title, left, top)` match (discovery
matches titles by the platform's substring comparison while `resize_window`
requires equality on its own re-enumerated snapshot), so `resize_window`
raises its unbound-local error before reaching `SetWindowPos` and
`find_windows` propagates the exception instead of returning. -/
theorem mismatched_window_resize_counterexample :
    (⟨10, 10, 200, 300⟩ : Rect) ∈
      discover [⟨2, "Calculator", 10, 10, 200, 300, true, false⟩] ∧
    ((⟨10, 10, 200, 300⟩ : Rect).width ≠ EXPECTED_WIDTH ∨
      (⟨10, 10, 200, 300⟩ : Rect).height ≠ EXPECTED_HEIGHT) ∧
    find_windows "Calculator"
      [⟨2, "Calculator", 10, 10, 200, 300, true, false⟩] [] =
      .error .unboundLocal :=
  ⟨by decide, Or.inl (by decide), rfl⟩

/-- C5 (amended): whenever `find_windows` returns — that is, every
corrective `resize_window` call completed — each returned rectangle whose
size differs from the expected template size (`464 x 838`, win32) had a
`SetWindowPos` command issued at its corner with the template size before
the return, and the rectangle kept in the returned sequence is still the
pre-correction one (its membership in `discover gws` shows its width and
height are the originally discovered ones, not the template's). When a
`resize_window` lookup fails instead, `find_windows` raises before issuing
that resize or returning anything (see the counterexample). -/
theorem mismatched_window_resized (title : String)
    (gws enumWs : List Window) (rs : List Rect)
    (cmds : List (Nat × Int × Int × Int × Int)) (r : Rect)
    (hok : find_windows title gws enumWs = .ok (rs, cmds))
    (hr : r ∈ rs)
    (hm : r.width ≠ EXPECTED_WIDTH ∨ r.height ≠ EXPECTED_HEIGHT) :
    (∃ hwnd,
      (hwnd, r.left, r.top, EXPECTED_WIDTH, EXPECTED_HEIGHT) ∈ cmds) ∧
    r ∈ discover gws := by
  have hd := mem_find_windows_fst hok hr
  exact ⟨resizePass_mem (find_windows_ok_shape hok).2 r hd hm, hd⟩

/-- C5 witness (amended claim): a visible `200 x 300` window at `(10, 10)`
whose exact-title lookup succeeds is kept with its original size in the
returned list while the `SetWindowPos` call to `464 x 838` on its handle is
issued. -/
theorem mismatched_window_resized_witness :
    (∃ hwnd,
      (hwnd, (10 : Int), (10 : Int), EXPECTED_WIDTH, EXPECTED_HEIGHT) ∈
        [((7 : Nat), (10 : Int), (10 : Int), EXPECTED_WIDTH,
          EXPECTED_HEIGHT)]) ∧
    (⟨10, 10, 200, 300⟩ : Rect) ∈
      discover [⟨2, "Calculator", 10, 10, 200, 300, true, false⟩] :=
  mismatched_window_resized "Calculator"
    [⟨2, "Calculator", 10, 10, 200, 300, true, false⟩]
    [⟨7, "Calculator", 10, 10, 200, 300, true, false⟩]
    (order (discover [⟨2, "Calculator", 10, 10, 200, 300, true, false⟩]))
    [(7, 10, 10, EXPECTED_WIDTH, EXPECTED_HEIGHT)]
    ⟨10, 10, 200, 300⟩
    rfl
    (by rw [order, List.mem_mergeSort]; decide)
    (Or.inl (by decide))

/-! ## Capture-loop lemmas (C1, C2, C4, C9) -/

lemma length_writeFrame (writers : List (Option VideoWriter)) (i : Nat)
    (f : List Pixel3) : (writeFrame writers i f).length = writers.length := by
  unfold writeFrame
  split <;> simp

lemma isInit_set_some {writers : List (Option VideoWriter)} {i : Nat}
    (h : i < writers.length) (x : VideoWriter) (j : Nat) :
    isInit (writers.set i (some x)) j =
      if j = i then true else isInit writers j := by
  unfold isInit
  by_cases hj : j = i
  · subst hj
    rw [List.getElem?_set_self (by simpa using h), if_pos rfl]
  · rw [List.getElem?_set_ne (Ne.symm hj), if_neg hj]

lemma isInit_writeFrame (writers : List (Option VideoWriter)) (i : Nat)
    (f : List Pixel3) (j : Nat) :
    isInit (writeFrame writers i f) j = isInit writers j := by
  unfold writeFrame
  split
  · rename_i w hw
    by_cases hj : j = i
    · subst hj
      have hlt : j < writers.length := by
        by_contra hc
        rw [List.getElem?_eq_none (by omega)] at hw
        cases hw
      unfold isInit
      rw [List.getElem?_set_self (by simpa using hlt), hw]
    · unfold isInit
      rw [List.getElem?_set_ne (Ne.symm hj)]
  · rfl

lemma slotEvents_nil (j : Nat) : slotEvents j [] = [] := rfl

lemma slotEvents_append (j : Nat) (a b : List CreateEvent) :
    slotEvents j (a ++ b) = slotEvents j a ++ slotEvents j b := by
  unfold slotEvents
  exact List.filter_append a b

lemma tickSlots_oob {isDarwin : Bool} {grab : Nat → Except PyError RawFrame}
    {writeRes : Nat → Except PyError Unit} {ts outputPfx : String}
    {writers : List (Option VideoWriter)} {i : Nat} {r : Rect}
    {rest : List Rect} (hi : writers[i]? = none) :
    tickSlots isDarwin grab writeRes ts outputPfx writers i (r :: rest) =
      .error .indexError := by
  rw [tickSlots, hi]

lemma tickSlots_cons_init {grab : Nat → Except PyError RawFrame}
    {writeRes : Nat → Except PyError Unit} {ts outputPfx : String}
    {writers : List (Option VideoWriter)} {i : Nat} {r : Rect}
    {rest : List Rect} {raw : RawFrame}
    (hi : writers[i]? = some none) (hg : grab i = .ok raw)
    (hw : writeRes i = .ok ()) :
    tickSlots false grab writeRes ts outputPfx writers i (r :: rest) =
      Except.map
        (fun p => (p.1, (⟨i, slotFilename outputPfx i ts⟩ : CreateEvent) ::
          p.2))
        (tickSlots false grab writeRes ts outputPfx
          (writeFrame
            (writers.set i
              (some ⟨slotFilename outputPfx i ts, r.width, r.height, []⟩))
            i (frameToBGR raw))
          (i + 1) rest) := by
  cases hrec : tickSlots false grab writeRes ts outputPfx
      (writeFrame
        (writers.set i
          (some ⟨slotFilename outputPfx i ts, r.width, r.height, []⟩))
        i (frameToBGR raw))
      (i + 1) rest with
  | error e => simp [tickSlots, hi, hg, hw, hrec, Except.map]
  | ok p =>
    cases p
    simp [tickSlots, hi, hg, hw, hrec, Except.map]

lemma tickSlots_cons_act {grab : Nat → Except PyError RawFrame}
    {writeRes : Nat → Except PyError Unit} {ts outputPfx : String}
    {writers : List (Option VideoWriter)} {i : Nat} {r : Rect}
    {rest : List Rect} {raw : RawFrame} {w0 : VideoWriter}
    (hi : writers[i]? = some (some w0)) (hg : grab i = .ok raw)
    (hw : writeRes i = .ok ()) :
    tickSlots false grab writeRes ts outputPfx writers i (r :: rest) =
      tickSlots false grab writeRes ts outputPfx
        (writeFrame writers i (frameToBGR raw)) (i + 1) rest := by
  cases hrec : tickSlots false grab writeRes ts outputPfx
      (writeFrame writers i (frameToBGR raw)) (i + 1) rest with
  | error e => simp [tickSlots, hi, hg, hw, hrec]
  | ok p =>
    cases p
    simp [tickSlots, hi, hg, hw, hrec]

lemma tick_ok_detail (ts outputPfx : String) :
    ∀ (rects : List Rect) (i0 : Nat) (writers : List (Option VideoWriter)),
      i0 + rects.length ≤ writers.length →
      ∃ ws' evs,
        tickSlots false okGrab okWrite ts outputPfx writers i0 rects =
          .ok (ws', evs) ∧
        ws'.length = writers.length ∧
        (∀ j, isInit ws' j =
          (isInit writers j || decide (i0 ≤ j ∧ j < i0 + rects.length))) ∧
        (∀ j, slotEvents j evs =
          (if i0 ≤ j ∧ j < i0 + rects.length ∧ isInit writers j = false
           then [⟨j, slotFilename outputPfx j ts⟩] else [])) := by
  intro rects
  induction rects with
  | nil =>
    intro i0 writers _
    refine ⟨writers, [], rfl, rfl, fun j => ?_, fun j => ?_⟩
    · simp only [List.length_nil]
      have h : ¬(i0 ≤ j ∧ j < i0 + 0) := by omega
      simp [h]
    · simp only [List.length_nil, slotEvents_nil]
      rw [if_neg]
      rintro ⟨h1, h2, h3⟩
      omega
  | cons r rest ih =>
    intro i0 writers hbound
    have hlen : i0 < writers.length := by
      simp only [List.length_cons] at hbound
      omega
    have hGet : writers[i0]? = some writers[i0] := List.getElem?_eq_getElem hlen
    cases hslot : writers[i0] with
    | none =>
      have hi : writers[i0]? = some none := by rw [hGet, hslot]
      have h0 : isInit writers i0 = false := by unfold isInit; rw [hi]
      set W1 := writeFrame
          (writers.set i0
            (some ⟨slotFilename outputPfx i0 ts, r.width, r.height, []⟩))
          i0 (frameToBGR [⟨10, 20, 30, 255⟩]) with hW1
      have hlenW1 : W1.length = writers.length := by
        rw [hW1, length_writeFrame, List.length_set]
      have hini : ∀ j, isInit W1 j =
          if j = i0 then true else isInit writers j := by
        intro j
        rw [hW1, isInit_writeFrame, isInit_set_some hlen]
      obtain ⟨ws', evs, hrec, hlen', hc, hd⟩ := ih (i0 + 1) W1 (by
        rw [hlenW1]
        simp only [List.length_cons] at hbound
        omega)
      refine ⟨ws', ⟨i0, slotFilename outputPfx i0 ts⟩ :: evs, ?_,
        by rw [hlen', hlenW1], fun j => ?_, fun j => ?_⟩
      · rw [tickSlots_cons_init hi rfl rfl, hrec]
        rfl
      · rw [hc j, hini j]
        by_cases hj : j = i0
        · subst hj
          rw [if_pos rfl, h0]
          simp only [List.length_cons]
          have hh : j ≤ j ∧ j < j + (rest.length + 1) := by omega
          simp [hh]
        · rw [if_neg hj]
          simp only [List.length_cons]
          congr 1
          rw [decide_eq_decide]
          omega
      · unfold slotEvents
        rw [List.filter_cons]
        by_cases hj : j = i0
        · subst hj
          have hdj := hd j
          rw [if_neg (by rintro ⟨h1, _, _⟩; omega)] at hdj
          unfold slotEvents at hdj
          rw [hdj]
          simp only [List.length_cons]
          simp [h0]
        · have hdj := hd j
          unfold slotEvents at hdj
          rw [hdj]
          have hpred : ((⟨i0, slotFilename outputPfx i0 ts⟩ :
              CreateEvent).slot == j) = false := by
            simp only [beq_eq_false_iff_ne, ne_eq]
            exact fun h => hj h.symm
          rw [hpred]
          simp only [Bool.false_eq_true, if_false]
          refine if_congr ?_ rfl rfl
          rw [hini j, if_neg hj]
          simp only [List.length_cons]
          constructor
          · rintro ⟨h1, h2, h3⟩
            exact ⟨by omega, by omega, h3⟩
          · rintro ⟨h1, h2, h3⟩
            exact ⟨by omega, by omega, h3⟩
    | some w0 =>
      have hi : writers[i0]? = some (some w0) := by rw [hGet, hslot]
      have h1i : isInit writers i0 = true := by unfold isInit; rw [hi]
      set W1 := writeFrame writers i0 (frameToBGR [⟨10, 20, 30, 255⟩])
        with hW1
      have hlenW1 : W1.length = writers.length := by
        rw [hW1, length_writeFrame]
      have hini : ∀ j, isInit W1 j = isInit writers j := by
        intro j
        rw [hW1, isInit_writeFrame]
      obtain ⟨ws', evs, hrec, hlen', hc, hd⟩ := ih (i0 + 1) W1 (by
        rw [hlenW1]
        simp only [List.length_cons] at hbound
        omega)
      refine ⟨ws', evs, ?_, by rw [hlen', hlenW1], fun j => ?_, fun j => ?_⟩
      · rw [tickSlots_cons_act hi rfl rfl, hrec]
      · rw [hc j, hini j]
        by_cases hj : j = i0
        · subst hj
          rw [h1i]
          simp
        · simp only [List.length_cons]
          congr 1
          rw [decide_eq_decide]
          omega
      · rw [hd j]
        refine if_congr ?_ rfl rfl
        rw [hini j]
        simp only [List.length_cons]
        constructor
        · rintro ⟨h1, h2, h3⟩
          exact ⟨by omega, by omega, h3⟩
        · rintro ⟨h1, h2, h3⟩
          have hj : j ≠ i0 := by
            rintro rfl
            rw [h1i] at h3
            cases h3
          exact ⟨by omega, by omega, h3⟩

lemma tickSlots_index_error (ts outputPfx : String) :
    ∀ (rects : List Rect) (i : Nat) (writers : List (Option VideoWriter)),
      rects ≠ [] → writers.length < i + rects.length →
      tickSlots false okGrab okWrite ts outputPfx writers i rects =
        .error .indexError := by
  intro rects
  induction rects with
  | nil => exact fun i writers hne _ => absurd rfl hne
  | cons r rest ih =>
    intro i writers _ h
    by_cases hi : i < writers.length
    · have hGet : writers[i]? = some writers[i] := List.getElem?_eq_getElem hi
      have hrest : rest ≠ [] := by
        intro he
        subst he
        simp only [List.length_cons, List.length_nil] at h
        omega
      simp only [List.length_cons] at h
      cases hslot : writers[i] with
      | none =>
        have hio : writers[i]? = some none := by rw [hGet, hslot]
        rw [tickSlots_cons_init hio rfl rfl,
          ih (i + 1) _ hrest (by rw [length_writeFrame, List.length_set]; omega)]
        rfl
      | some w0 =>
        have hio : writers[i]? = some (some w0) := by rw [hGet, hslot]
        rw [tickSlots_cons_act hio rfl rfl]
        exact ih (i + 1) _ hrest (by rw [length_writeFrame]; omega)
    · exact tickSlots_oob (List.getElem?_eq_none (by omega))

lemma run_ok_detail (outputPfx : String) :
    ∀ (ticks : List (String × List Rect))
      (writers : List (Option VideoWriter)),
      writers.length = 10 →
      (∀ p ∈ ticks, p.2.length ≤ 10) →
      ∃ ws evs,
        runTicks false outputPfx (ticks.map (fun p => mkTick p.1 p.2))
          writers = .ok (ws, evs) ∧
        ws.length = 10 ∧
        ∀ j,
          slotEvents j evs =
            (if isInit writers j = false then
              (match ticks.find? (fun p => decide (j < p.2.length)) with
                | some p => [⟨j, slotFilename outputPfx j p.1⟩]
                | none => [])
             else []) ∧
          isInit ws j =
            (isInit writers j ||
              ticks.any (fun p => decide (j < p.2.length))) := by
  intro ticks
  induction ticks with
  | nil =>
    intro writers hw _
    refine ⟨writers, [], rfl, hw, fun j => ⟨?_, ?_⟩⟩
    · cases hin : isInit writers j <;> simp [slotEvents, hin, List.find?]
    · simp
  | cons p ticks ih =>
    obtain ⟨ts, rects⟩ := p
    intro writers hw hb
    have hhead : rects.length ≤ 10 := hb (ts, rects) (by simp)
    obtain ⟨ws1, evs1, h1, hlen1, hc1, hd1⟩ :=
      tick_ok_detail ts outputPfx rects 0 writers (by omega)
    obtain ⟨wsF, evsR, h2, hlenF, hjs⟩ :=
      ih ws1 (by rw [hlen1, hw]) (fun q hq => hb q (by simp [hq]))
    refine ⟨wsF, evs1 ++ evsR, ?_, hlenF, fun j => ⟨?_, ?_⟩⟩
    · simp only [mkTick] at h2
      simp only [List.map_cons, runTicks, mkTick]
      rw [h1]
      dsimp only
      rw [h2]
    · rw [slotEvents_append, hd1 j, (hjs j).1]
      by_cases hin : isInit writers j = true
      · rw [if_neg (by rintro ⟨_, _, h3⟩; rw [hin] at h3; cases h3)]
        have hws1 : isInit ws1 j = true := by rw [hc1 j, hin, Bool.true_or]
        rw [if_neg (by rw [hws1]; rintro ⟨⟩), if_neg (by rw [hin]; rintro ⟨⟩)]
        rfl
      · have hin' : isInit writers j = false := by
          revert hin
          cases isInit writers j <;> simp
        by_cases hlt : j < rects.length
        · rw [if_pos ⟨Nat.zero_le _, by omega, hin'⟩]
          have hws1 : isInit ws1 j = true := by
            rw [hc1 j, hin', Bool.false_or, decide_eq_true_eq]
            omega
          rw [if_neg (by rw [hws1]; rintro ⟨⟩), if_pos hin',
            List.find?_cons_of_pos _ (by simpa using hlt)]
          simp
        · rw [if_neg (by rintro ⟨_, h2', _⟩; omega)]
          have hws1 : isInit ws1 j = isInit writers j := by
            rw [hc1 j]
            have hno : decide (0 ≤ j ∧ j < 0 + rects.length) = false := by
              rw [decide_eq_false_iff_not]
              omega
            rw [hno, Bool.or_false]
          rw [hws1, if_pos hin', if_pos hin',
            List.find?_cons_of_neg _ (by simpa using hlt)]
          rfl
    · rw [(hjs j).2, hc1 j]
      simp only [List.any_cons]
      have hdec : decide (0 ≤ j ∧ j < 0 + rects.length) =
          decide (j < rects.length) := by
        rw [decide_eq_decide]
        omega
      rw [hdec, Bool.or_assoc]

lemma drain_eq_filterMap (ws : List (Option VideoWriter)) :
    drain ws = ws.filterMap id := by
  induction ws with
  | nil => rfl
  | cons o rest ih => cases o <;> simp [drain, ih]

lemma drain_append (a b : List (Option VideoWriter)) :
    drain (a ++ b) = drain a ++ drain b := by
  induction a with
  | nil => rfl
  | cons o rest ih => cases o <;> simp [drain, ih]

/-- C1: the claim that a per-slot grab/write failure is isolated to its slot
is false of the code: `capture_loop` has no try/except, so an exception
raised while grabbing slot 0 of a two-window tick propagates, the tick
aborts before slot 1 is processed, the loop exits, and even the drain step
is skipped (the run's result is the bare exception). The same trace with
succeeding grabs processes both slots: two writers are created and both
receive the frame. -/
theorem grab_failure_aborts_tick :
    capture_loop false "" [⟨"t", [rA, rB], failGrab0, okWrite⟩] =
      .error .grabError ∧
    capture_loop false "" [mkTick "t" [rA, rB]] =
      .ok ([⟨0, slotFilename "" 0 "t"⟩, ⟨1, slotFilename "" 1 "t"⟩],
        [⟨slotFilename "" 0 "t", 200, 300, [[⟨30, 20, 10⟩]]⟩,
         ⟨slotFilename "" 1 "t", 200, 300, [[⟨30, 20, 10⟩]]⟩]) :=
  ⟨rfl, rfl⟩

/-- C2 counterexample: with an ordered region list of 11 rectangles the
per-slot step is not restricted to ordinals below the pool capacity:
reading `video_writers[10]` raises IndexError, refuting "for any ordered
region list of any length, every access to the slot pool is within
bounds". -/
theorem slot_pool_overflow_counterexample :
    capture_loop false ""
      [mkTick "t" (List.replicate 11 ⟨100, 100, 5, 5⟩)] =
      .error .indexError :=
  rfl

/-- C2 (amended): the recorder pool has fixed capacity 10
(`video_writers = [None] * 10`), but the loop iterates every ordinal of the
region list with no `i < N` guard; with succeeding grabs and writes a tick
completes — every slot-pool access in bounds — precisely when the ordered
region list has at most 10 entries, and with more entries the tick raises
IndexError at ordinal 10. -/
theorem slot_pool_capacity_bound (ts outputPfx : String)
    (rects : List Rect) :
    (List.replicate 10 (none : Option VideoWriter)).length = 10 ∧
    ((∃ out, capture_loop false outputPfx [mkTick ts rects] = .ok out) ↔
      rects.length ≤ 10) ∧
    (10 < rects.length →
      capture_loop false outputPfx [mkTick ts rects] =
        .error .indexError) := by
  have herr : 10 < rects.length →
      capture_loop false outputPfx [mkTick ts rects] =
        .error .indexError := by
    intro hgt
    have hne : rects ≠ [] := by
      intro he
      subst he
      simp at hgt
    have h := tickSlots_index_error ts outputPfx rects 0
      (List.replicate 10 none) hne (by simp; omega)
    unfold capture_loop
    simp only [runTicks, mkTick]
    rw [h]
  refine ⟨by simp, ⟨?_, ?_⟩, herr⟩
  · rintro ⟨out, hout⟩
    by_contra hgt
    push_neg at hgt
    rw [herr hgt] at hout
    cases hout
  · intro hle
    obtain ⟨ws1, evs1, h1, _, _, _⟩ := tick_ok_detail ts outputPfx rects 0
      (List.replicate 10 none) (by simp; omega)
    refine ⟨(evs1 ++ [], drain ws1), ?_⟩
    unfold capture_loop
    simp only [runTicks, mkTick]
    rw [h1]

/-- C4: whenever the capture loop leaves the running state via the
cancellation signal — the tick trace ends, after any number of completed
ticks — the drain step executes: `capture_loop` returns the drained pool,
the drained sequence is exactly the initialized writers (`filterMap id` of
the pool), each initialized slot contributes its writer exactly once at its
position, and every uninitialized (`None`) slot is skipped with no release
attempted. -/
theorem cancellation_drains_all (isDarwin : Bool) (outputPfx : String)
    (ticks : List TickInput) (ws : List (Option VideoWriter))
    (evs : List CreateEvent)
    (h : runTicks isDarwin outputPfx ticks (List.replicate 10 none) =
      .ok (ws, evs)) :
    capture_loop isDarwin outputPfx ticks = .ok (evs, drain ws) ∧
    drain ws = ws.filterMap id ∧
    (∀ l₁ w l₂, ws = l₁ ++ some w :: l₂ →
      drain ws = drain l₁ ++ w :: drain l₂) ∧
    (∀ l₁ l₂, ws = l₁ ++ none :: l₂ → drain ws = drain l₁ ++ drain l₂) := by
  refine ⟨?_, drain_eq_filterMap ws, ?_, ?_⟩
  · unfold capture_loop
    rw [h]
  · rintro l₁ w l₂ rfl
    rw [drain_append]
    rfl
  · rintro l₁ l₂ rfl
    rw [drain_append]
    rfl

/-- C4 witness: a one-tick trace that initializes slot 0 only; drain
releases that single writer and skips the nine empty slots. -/
theorem cancellation_drains_all_witness :
    capture_loop false "" [mkTick "t" [rA]] =
      .ok ([⟨0, slotFilename "" 0 "t"⟩],
        drain (some ⟨slotFilename "" 0 "t", 200, 300, [[⟨30, 20, 10⟩]]⟩ ::
          List.replicate 9 none)) :=
  (cancellation_drains_all false "" [mkTick "t" [rA]]
    (some ⟨slotFilename "" 0 "t", 200, 300, [[⟨30, 20, 10⟩]]⟩ ::
      List.replicate 9 none)
    [⟨0, slotFilename "" 0 "t"⟩] rfl).1

/-- C9: output files are created lazily and exactly once per bound slot.
For any trace of ticks (timestamp and ordered region list per tick, all
lists within pool capacity, succeeding grabs and writes) and any slot
`i < 10`: the run succeeds, and slot `i`'s writer-creation events are
exactly one event — stamped at the first tick whose region list binds
ordinal `i`, naming the file
`output_prefix ++ "capture_" ++ i ++ "_" ++ timestamp ++ ".mp4"` — when such
a tick exists, and no event at all otherwise (no file for a slot that never
receives a frame). -/
theorem lazy_single_file_per_slot (outputPfx : String)
    (ticks : List (String × List Rect)) (i : Nat) (hi : i < 10)
    (hb : ∀ p ∈ ticks, p.2.length ≤ 10) :
    ∃ ws evs,
      runTicks false outputPfx (ticks.map (fun p => mkTick p.1 p.2))
        (List.replicate 10 none) = .ok (ws, evs) ∧
      slotEvents i evs =
        (match ticks.find? (fun p => decide (i < p.2.length)) with
          | some p => [⟨i, slotFilename outputPfx i p.1⟩]
          | none => []) ∧
      ∀ ts, slotFilename outputPfx i ts =
        outputPfx ++ "capture_" ++ toString i ++ "_" ++ ts ++ ".mp4" := by
  obtain ⟨ws, evs, h, _, hjs⟩ :=
    run_ok_detail outputPfx ticks (List.replicate 10 none) (by simp) hb
  refine ⟨ws, evs, h, ?_, fun ts => rfl⟩
  have h0 : isInit (List.replicate 10 (none : Option VideoWriter)) i =
      false := by
    unfold isInit
    rw [List.getElem?_replicate_of_lt hi]
  have hev := (hjs i).1
  rw [h0] at hev
  simpa using hev

/-- C9 witness: in a two-tick trace whose first tick has no regions and
whose second tick binds slot 0, the single creation event for slot 0 is
stamped with the second tick's timestamp. -/
theorem lazy_single_file_per_slot_witness :
    ∃ ws evs,
      runTicks false ""
        ([("a", ([] : List Rect)), ("b", [rA])].map
          (fun p => mkTick p.1 p.2))
        (List.replicate 10 none) = .ok (ws, evs) ∧
      slotEvents 0 evs = [⟨0, slotFilename "" 0 "b"⟩] := by
  obtain ⟨ws, evs, h, h2, _⟩ :=
    lazy_single_file_per_slot "" [("a", []), ("b", [rA])] 0 (by decide)
      (by decide)
  refine ⟨ws, evs, h, ?_⟩
  rw [h2]
  rfl

/-- C2 witness (amended claim): the completion criterion instantiated at a
concrete one-rectangle list, which is within the 10-slot capacity, so the
tick completes. -/
theorem slot_pool_capacity_bound_witness :
    ∃ out, capture_loop false "" [mkTick "t" [rA]] = .ok out :=
  (slot_pool_capacity_bound "t" "" [rA]).2.1.mpr (by decide)
